import Mathlib

/-!
Verification development for the ascii-telnet-server repository.

The definitions below are shallow embeddings of the Python source:
  * `ascii_telnet/ascii_server.py`   — the telnet protocol byte filter
    `TelnetRequestHandler.get_text_from_raw_bytes`;
  * `ascii_telnet/ascii_movie.py`    — `Frame`, `TimeBar`, `Movie`
    (`Movie.compress`, `Movie.load`, `TimeBar.get_marker_postion`,
    `TimeBar.get_timebar`);
  * `ascii_telnet/prompt_resolver.py` — `Prompt.run`, `Dialogue.run`;
  * `ascii_telnet_server.py`          — the startup handling of the
    dialogue configuration document.

Bytes are modelled as `Nat` (Python `int` values of `bytes` iteration),
Python `int` as `Int`/`Nat` as appropriate, text as `String`, and fallible
code as `Option`/`Except`.  Python float arithmetic inside
`TimeBar.get_marker_postion` is modelled over `ℚ` with round-half-to-even,
matching Python's `round` on exact values.
-/

namespace AsciiTelnet

/-! ### Telnet command codes (ascii_server.py, lines 54-70) -/

def IAC : Nat := 255
def DONT : Nat := 254
def DO : Nat := 253
def WONT : Nat := 252
def WILL : Nat := 251
def SE : Nat := 240
def SB : Nat := 250

/-! ### The protocol byte filter (ascii_server.py, `get_text_from_raw_bytes`)

The Python loop keeps `last_byte` (initially `None`) and appends the bytes
that survive filtering to `real_text_bytes`.  The `continue` in the
`last_byte == SB` branch skips the trailing `last_byte = byte_integer`
update, so `last_byte` stays `SB` until the subnegotiation-end byte is
seen. -/

/-- One pass of the loop body of `get_text_from_raw_bytes`: given the
`last_byte` state and the remaining input bytes, return the emitted
text bytes, exactly mirroring the branch structure of the Python loop. -/
def filterLoop (last : Option Nat) : List Nat → List Nat
  | [] => []
  | b :: rest =>
    if last = some SB ∧ b = SE then
      filterLoop (some b) rest
    else if last = some SB then
      -- `continue`: skip everything between SB and SE; last_byte not updated
      filterLoop last rest
    else if last = some IAC ∨ last = some WILL ∨ last = some WONT
            ∨ last = some DO ∨ last = some DONT then
      filterLoop (some b) rest
    else if 240 ≤ b ∧ b ≤ 255 then
      filterLoop (some b) rest
    else
      b :: filterLoop (some b) rest

/-- The `last_byte` state after the loop of `get_text_from_raw_bytes`
has consumed a list of bytes (the loop updates `last_byte := b` on every
branch except the `continue` branch, which leaves it at `SB`). -/
def lastByteAfter (last : Option Nat) : List Nat → Option Nat
  | [] => last
  | b :: rest =>
    if last = some SB ∧ ¬ b = SE then
      lastByteAfter last rest
    else
      lastByteAfter (some b) rest

/-- ISO-8859-1 decoding (`bytes.decode('ISO-8859-1')`): each byte maps to
the Unicode character of the same code point. -/
def decodeLatin1 (bs : List Nat) : String :=
  String.mk (bs.map Char.ofNat)

/-- `TelnetRequestHandler.get_text_from_raw_bytes` (ascii_server.py,
lines 189-208): filter out telnet command sequences, then decode the
surviving bytes as ISO-8859-1. -/
def get_text_from_raw_bytes (bytes_in : List Nat) : String :=
  decodeLatin1 (filterLoop none bytes_in)

/-! ### Frames and movie compression (ascii_movie.py) -/

/-- `Frame` (ascii_movie.py, lines 41-77): a display duration in ticks and
the frame's text lines.  `Frame.__eq__` compares `data` only, which
`compress` relies on; `display_time` is a Python `int`, modelled as `Int`. -/
structure Frame where
  display_time : Int := 1
  data : List String := []
  deriving Repr, DecidableEq

/-- `Frame.__eq__`: frames compare equal iff their `data` lines are equal
(display_time is ignored). -/
def frameEq (a b : Frame) : Bool :=
  a.data == b.data

/-- The loop of `Movie.compress` (ascii_movie.py, lines 326-333), with
`cur` playing the role of `current_frame`, the head of the run currently
being merged.  When the next frame's data equals the current frame's data,
its display_time is folded into the current frame
(`current_frame.display_time += this_frame.display_time`); otherwise the
current frame is emitted and the next frame starts a new run. -/
def compressRun (cur : Frame) : List Frame → List Frame
  | [] => [cur]
  | f :: rest =>
    if frameEq f cur then
      compressRun { cur with display_time := cur.display_time + f.display_time } rest
    else
      cur :: compressRun f rest

/-- `Movie.compress` (ascii_movie.py, lines 323-337).  After building
`new_frames` it computes
`(len(self.frames) - len(new_frames)) / len(self.frames)`, which raises
`ZeroDivisionError` when the frame list is empty — modelled as `none`. -/
def compress (frames : List Frame) : Option (List Frame) :=
  match frames with
  | [] => none
  | f :: rest => some (compressRun f rest)

/-- Total display time of a frame list, in ticks. -/
def totalDisplayTime (frames : List Frame) : Int :=
  (frames.map Frame.display_time).sum

/-! ### Movie loading (ascii_movie.py, `Movie.load`) -/

/-- The `Movie` state touched by `load` (ascii_movie.py, lines 150-220):
the frame list, the load-once flag `_loaded`, and the geometry fields used
by `_fix_line` when parsing the text format. -/
structure Movie where
  frames : List Frame
  loaded : Bool
  screen_width : Nat
  screen_height : Nat
  frame_width : Nat
  frame_height : Nat
  left_margin : Nat
  top_margin : Nat
  deriving Repr, DecidableEq

/-- `str.rstrip()`: drop trailing whitespace. -/
def rstripStr (s : String) : String :=
  s.dropRightWhile Char.isWhitespace

/-- `str.ljust(w)`: pad on the right with spaces to width `w`. -/
def ljust (s : String) (w : Nat) : String :=
  s ++ String.mk (List.replicate (w - s.length) ' ')

/-- `str.rjust(w)`: pad on the left with spaces to width `w`. -/
def rjust (s : String) (w : Nat) : String :=
  String.mk (List.replicate (w - s.length) ' ') ++ s

/-- `Movie._fix_line` (ascii_movie.py, lines 263-270): strip the line
ending, fill out to the frame width, then center via the left margin. -/
def fixLine (m : Movie) (line : String) : String :=
  rjust (ljust (rstripStr line) m.frame_width) (m.left_margin + m.frame_width)

/-- The loop of `Movie._get_text_frames` (ascii_movie.py, lines 222-240)
after the first metadata line has opened `cur`: every
`lines_per_frame`-th line is an integer time-metadata line starting a new
frame (`int(line.strip())`, a parse failure raising `ValueError`, modelled
as `Except.error`), every other line is fixed up and appended to the
current frame's data. -/
def collectTextFrames (m : Movie) (lpf : Nat) (lineNum : Nat) (cur : Frame) :
    List String → Except String (List Frame)
  | [] => .ok [cur]
  | line :: rest =>
    if lineNum % lpf = 0 then
      match (line.trim).toInt? with
      | none => .error "ValueError"
      | some t =>
        (collectTextFrames m lpf (lineNum + 1) { display_time := t, data := [] } rest).map
          (cur :: ·)
    else
      collectTextFrames m lpf (lineNum + 1)
        { cur with data := cur.data ++ [fixLine m line] } rest

/-- `Movie._get_text_frames` (ascii_movie.py, lines 222-240):
`lines_per_frame = frame_height + TimeBar.height` (TimeBar.height = 1);
line 0 is always a time-metadata line. -/
def getTextFrames (m : Movie) (lines : List String) : Except String (List Frame) :=
  match lines with
  | [] => .ok []
  | line0 :: rest =>
    match (line0.trim).toInt? with
    | none => .error "ValueError"
    | some t =>
      collectTextFrames m (m.frame_height + 1) 1 { display_time := t, data := [] } rest

/-- The content `Movie.load` reads, keyed by the file extension it
dispatches on: a `.txt` file is a list of lines; a `.yaml` file is parsed
by `_get_yaml_frames` into a frame list (the YAML event walk itself is not
needed by any claim and is represented by its resulting frames); any other
extension matches neither branch, so the frame list is left untouched. -/
inductive MovieFile where
  | txt (lines : List String)
  | yaml (frames : List Frame)
  | otherExtension
  deriving Repr, DecidableEq

/-- `Movie.load` (ascii_movie.py, lines 193-220).  If `_loaded` is already
set it returns `False` immediately, touching nothing.  Otherwise it parses
the file into `self.frames`, compresses, sets `_loaded`, and returns
`True`.  Parse failures and the empty-frame `ZeroDivisionError` inside
`compress` are modelled as `Except.error`. -/
def Movie.load (m : Movie) (file : MovieFile) : Except String (Bool × Movie) :=
  if m.loaded then
    -- we don't want to be loaded twice.
    .ok (false, m)
  else do
    let parsed ←
      match file with
      | .txt lines => getTextFrames m lines
      | .yaml frames => .ok frames
      | .otherExtension => .ok m.frames
    match compress parsed with
    | none => .error "ZeroDivisionError"
    | some compressed =>
      .ok (true, { m with frames := compressed, loaded := true })

/-! ### TimeBar (ascii_movie.py, lines 80-147)

`get_marker_postion` computes `int(round(internal_length / duration *
frame_num, 0))` with Python float arithmetic; it is modelled over `ℚ`
with round-half-to-even, which agrees with Python `round` on exact
values (float rounding may differ at ties that floats cannot represent
exactly, which affects none of the properties proved here). -/

structure TimeBar where
  duration : Nat
  length : Nat
  left_decorator : String := "<"
  spacer : String := " "
  right_decorator : String := ">"
  marker : String := "o"
  deriving Repr, DecidableEq

/-- `self.internal_length = self.length - len(self.left_decorator) -
len(self.right_decorator)` (ascii_movie.py, line 104); Python `int`
subtraction, modelled as `Int`. -/
def TimeBar.internal_length (tb : TimeBar) : Int :=
  (tb.length : Int) - tb.left_decorator.length - tb.right_decorator.length

/-- The `TimeBar.__init__` validation (ascii_movie.py, lines 106-109):
the constructor raises `ValueError` unless
`len(left_decorator + right_decorator + marker) <= length`. -/
def TimeBar.valid (tb : TimeBar) : Prop :=
  (tb.left_decorator ++ tb.right_decorator ++ tb.marker).length ≤ tb.length

instance (tb : TimeBar) : Decidable tb.valid := by
  unfold TimeBar.valid; infer_instance

/-- Python `round(x, 0)` on an exact value: round half to even. -/
def roundHalfEven (q : ℚ) : Int :=
  if q - ⌊q⌋ < 1 / 2 then ⌊q⌋
  else if 1 / 2 < q - ⌊q⌋ then ⌊q⌋ + 1
  else if ⌊q⌋ % 2 = 0 then ⌊q⌋ else ⌊q⌋ + 1

/-- `TimeBar.get_marker_postion` (ascii_movie.py, lines 117-128):
`int(round(self.internal_length / self.duration * frame_num, 0))`.
When `duration = 0` the division raises `ZeroDivisionError`, modelled
as `none`. -/
def TimeBar.get_marker_postion (tb : TimeBar) (frame_num : Nat) : Option Int :=
  if tb.duration = 0 then none
  else some (roundHalfEven ((tb.internal_length : ℚ) / (tb.duration : ℚ) * (frame_num : ℚ)))

/-- The marker position actually used by `TimeBar.get_timebar`
(ascii_movie.py, lines 139-143): the raw marker position, clamped so the
marker never overwrites the end decorator
(`if marker_pos >= self.internal_length: marker_pos = self.internal_length - 1`). -/
def TimeBar.get_timebar_marker_pos (tb : TimeBar) (frame_num : Nat) : Option Int :=
  (tb.get_marker_postion frame_num).map fun p =>
    if tb.internal_length ≤ p then tb.internal_length - 1 else p

/-! ### Dialogue trees (prompt_resolver.py)

Nodes parsed from the YAML dialogue document: `Output`, `Repeat`,
`Prompt`, plain strings, plus Python `None` (an absent `default`).  A
`Prompt.response` is either a single node or a dict mapping regex
patterns to nodes.  `re.search(key, response, re.IGNORECASE)` is modelled
for literal patterns as case-insensitive substring search. -/

mutual

inductive CNode where
  | nstr (s : String)
  | nout (text : String)
  | nrepeat
  | nprompt (question : String) (response : CResponse) (dflt : Option CNode)
  deriving Repr

inductive CResponse where
  | direct (n : CNode)
  | table (entries : List (String × CNode))
  deriving Repr

end

/-- `re.search(pattern, input, re.IGNORECASE)` for a literal pattern:
case-insensitive substring search (both sides lower-cased character by
character). -/
def searchCaseInsensitive (pattern input : String) : Bool :=
  decide (pattern.data.map Char.toLower <:+: input.data.map Char.toLower)

/-- `Prompt._find_response` (prompt_resolver.py, lines 46-53): a direct
str/Output/Prompt response is returned as-is; a dict response returns the
value of the first key matching the input (case-insensitive regex
search); everything else (including a direct `Repeat` response, which the
isinstance checks do not cover) falls through to `self.default`. -/
def findResponse (response : CResponse) (dflt : Option CNode) (input : String) :
    Option CNode :=
  match response with
  | .direct n =>
    match n with
    | .nrepeat => dflt
    | _ => some n
  | .table entries =>
    match entries.find? (fun e => searchCaseInsensitive e.1 input) with
    | some e => some e.2
    | none => dflt

/-- The question string `Prompt.run` passes to `prompt_func`
(prompt_resolver.py, line 40): `'\n' + self.prompt + '\n>> '`. -/
def promptText (question : String) : String :=
  "\n" ++ question ++ "\n>> "

/-- `Prompt.run` (prompt_resolver.py, lines 38-44), with the interactive
`prompt_func` embedded as a stream of input lines.  Returns the list of
question strings passed to `prompt_func` (in order), the resulting dict
`{key: (input_text, response)}` as a `(key, input_text, response)`
triple, and the unconsumed inputs; `none` when the input stream is
exhausted.  A `Repeat` response triggers `return self.run(prompt_func)`:
the same prompt retried with the same `prompt_func`. -/
def promptRun (question : String) (response : CResponse) (dflt : Option CNode) :
    List String → Option (List String × (String × String × Option CNode) × List String)
  | [] => none
  | i :: rest =>
    match findResponse response dflt i with
    | some .nrepeat =>
      (promptRun question response dflt rest).map
        fun r => (promptText question :: r.1, r.2)
    | resp => some ([promptText question], (question, i, resp), rest)

/-- The dialogue resolution result (`Dialogue._resolve_conversation_value`,
prompt_resolver.py, lines 69-86): a Prompt resolves to the dict
`{prompt, input, resolved}`, an Output to `{output: text}`, any other
value (a plain string, a stray `Repeat`, or Python `None`) is returned
as-is. -/
inductive DRes where
  | rawNone
  | rawNode (n : CNode)
  | outDict (text : String)
  | promptDict (question : String) (input : String) (resolved : DRes)
  deriving Repr

inductive DErr where
  | keyError
  | inputExhausted
  deriving Repr, DecidableEq

/-- `Dialogue._resolve_conversation_value` (prompt_resolver.py, lines
69-86), with `Prompt.run`'s repeat loop inlined (a `Repeat` match retries
the same Prompt on the remaining inputs).  A Prompt consumes one input
line; resolution then recurses into the matched (or default) response
node.  `inputExhausted` models `prompt_func` having no line to return. -/
def resolveValue (v : Option CNode) (inputs : List String) :
    Except DErr (DRes × List String) :=
  match v, inputs with
  | some (.nprompt _ _ _), [] => .error .inputExhausted
  | some (.nprompt q r d), i :: rest =>
    match findResponse r d i with
    | some .nrepeat => resolveValue (some (.nprompt q r d)) rest
    | resp =>
      match resolveValue resp rest with
      | .error e => .error e
      | .ok (resolved, rem) => .ok (.promptDict q i resolved, rem)
  | some (.nout t), inputs => .ok (.outDict t, inputs)
  | some n, inputs => .ok (.rawNode n, inputs)
  | none, inputs => .ok (.rawNone, inputs)
termination_by inputs.length

/-- `Dialogue` (prompt_resolver.py, lines 59-67): named conversations.
Python's dict is modelled as an association list. -/
structure Dialogue where
  conversations : List (String × CNode)

/-- `Dialogue.run` (prompt_resolver.py, lines 66-67):
`self.conversations[conversation_name]` raises `KeyError` when the name
is absent — at the moment `run` is called. -/
def Dialogue.run (d : Dialogue) (name : String) (inputs : List String) :
    Except DErr (DRes × List String) :=
  match d.conversations.find? (fun e => e.1 == name) with
  | none => .error .keyError
  | some e => resolveValue (some e.2) inputs

/-- The startup handling of the dialogue document
(ascii_telnet_server.py, lines 181-184): `result = yaml.unsafe_load(f)`
then `dialogue = result['dialogue']`.  Startup fails (KeyError) only when
the top-level `dialogue` key is absent; the conversation names inside the
dialogue are never inspected before connections are served. -/
def startupLoadDialogue (yamlResult : List (String × Dialogue)) : Except DErr Dialogue :=
  match yamlResult.find? (fun e => e.1 == "dialogue") with
  | none => .error .keyError
  | some e => .ok e.2

/-! ## Lemmas about the protocol byte filter -/

/-- Splitting the filter loop across an append: the emitted bytes are the
emissions from the first part followed by the emissions from the second
part started in the state the first part left behind. -/
theorem filterLoop_append (xs : List Nat) : ∀ (last : Option Nat) (ys : List Nat),
    filterLoop last (xs ++ ys) =
      filterLoop last xs ++ filterLoop (lastByteAfter last xs) ys := by
  induction xs with
  | nil => intro last ys; simp [filterLoop, lastByteAfter]
  | cons b xs ih =>
    intro last ys
    by_cases hSB : last = some SB
    · by_cases hSE : b = SE
      · simp [filterLoop, lastByteAfter, hSB, hSE, ih]
      · simp [filterLoop, lastByteAfter, hSB, hSE, ih]
    · by_cases hcmd : last = some IAC ∨ last = some WILL ∨ last = some WONT
          ∨ last = some DO ∨ last = some DONT
      · simp [filterLoop, lastByteAfter, hSB, hcmd, ih]
      · by_cases hrange : 240 ≤ b ∧ b ≤ 255
        · simp [filterLoop, lastByteAfter, hSB, hcmd, hrange, ih]
        · simp [filterLoop, lastByteAfter, hSB, hcmd, hrange, ih]

/-- An `SB` byte emits nothing and puts the loop in the span state
`some SB`, whatever the previous state was (if the state already was
`SB`, the `continue` branch keeps it there). -/
theorem filterLoop_cons_SB (last : Option Nat) (rest : List Nat) :
    filterLoop last (SB :: rest) = filterLoop (some SB) rest := by
  by_cases hSB : last = some SB
  · simp [filterLoop, hSB, SB, SE]
  · by_cases hcmd : last = some IAC ∨ last = some WILL ∨ last = some WONT
        ∨ last = some DO ∨ last = some DONT
    · simp [filterLoop, hSB, hcmd]
    · simp [filterLoop, hSB, hcmd, SB]
      exact fun _ hc => absurd hc (by simpa [SB] using hSB)

/-- Inside a subnegotiation span (state `SB`), any run of bytes free of
`SE` emits nothing and leaves the loop inside the span. -/
theorem filterLoop_span_skip (payload : List Nat) (h : SE ∉ payload)
    (rest : List Nat) :
    filterLoop (some SB) (payload ++ rest) = filterLoop (some SB) rest := by
  induction payload with
  | nil => rfl
  | cons b tl ih =>
    have hb : ¬ b = SE := fun hEq => h (by simp [hEq])
    have htl : SE ∉ tl := fun hm => h (by simp [hm])
    simp [filterLoop, hb, ih htl]

/-- The subnegotiation-end byte seen in the span state emits nothing and
closes the span. -/
theorem filterLoop_SB_SE (rest : List Nat) :
    filterLoop (some SB) (SE :: rest) = filterLoop (some SE) rest := by
  simp [filterLoop]

/-! ## C1, C2, C3: the protocol filter -/

/-- **C1**: for every input containing a subnegotiation span — an `SB`
byte, payload bytes containing no `SE`, then a closing `SE` — the filter
emits none of the payload bytes (the output is what it would be with an
empty payload), and the closing `SE` itself emits nothing (the span as a
whole contributes nothing to the output). -/
theorem subneg_span_payload_discarded (pre payload post : List Nat)
    (h : SE ∉ payload) :
    get_text_from_raw_bytes (pre ++ SB :: (payload ++ SE :: post)) =
      get_text_from_raw_bytes (pre ++ SB :: SE :: post) ∧
    get_text_from_raw_bytes (pre ++ SB :: (payload ++ [SE])) =
      get_text_from_raw_bytes pre := by
  unfold get_text_from_raw_bytes
  constructor
  · congr 1
    rw [filterLoop_append pre, filterLoop_append pre, filterLoop_cons_SB,
      filterLoop_cons_SB, filterLoop_span_skip payload h]
  · congr 1
    rw [filterLoop_append pre, filterLoop_cons_SB,
      filterLoop_span_skip payload h, filterLoop_SB_SE]
    simp [filterLoop]

/-- Witness for C1 at a concrete input: text byte 65, span ⟨SB, 1, 2,
SE⟩, text byte 66. -/
theorem subneg_span_payload_discarded_witness :
    get_text_from_raw_bytes ([65] ++ SB :: ([1, 2] ++ SE :: [66])) =
      get_text_from_raw_bytes ([65] ++ SB :: SE :: [66]) ∧
    get_text_from_raw_bytes ([65] ++ SB :: ([1, 2] ++ [SE])) =
      get_text_from_raw_bytes [65] :=
  subneg_span_payload_discarded [65] [1, 2] [66] (by decide)

/-- **C2 (counterexample)**: the filter maps the byte sequence
`[73, 252, 1, 65, 66]` to `"IAB"`, not `"AB"`: 73 is printable ASCII
`'I'`, not a command byte, so it is kept; only the WONT-option pair
`252, 1` is stripped. -/
theorem filter_73_not_AB :
    ¬ get_text_from_raw_bytes [73, 252, 1, 65, 66] = "AB" := by
  decide

/-- **C2 (amended)**: filtering `[73, 252, 1, 65, 66]` yields exactly
`"IAB"` — the leading byte 73 is the ordinary text byte `'I'` and
survives the filter; the `252, 1` pair is stripped. -/
theorem filter_73_yields_IAB :
    get_text_from_raw_bytes [73, 252, 1, 65, 66] = "IAB" := by
  decide

/-- Every byte in a printable-ASCII list survives the filter unchanged,
provided the incoming state is the initial state or a printable byte
(neither is the span state nor a two-byte-command state). -/
theorem filterLoop_printable (bs : List Nat) (h : ∀ b ∈ bs, 32 ≤ b ∧ b ≤ 126) :
    ∀ last : Option Nat,
      (last = none ∨ ∃ a, last = some a ∧ 32 ≤ a ∧ a ≤ 126) →
      filterLoop last bs = bs := by
  induction bs with
  | nil => intro last _; rfl
  | cons b rest ih =>
    intro last hlast
    have hb : 32 ≤ b ∧ b ≤ 126 := h b (by simp)
    have hrest : ∀ x ∈ rest, 32 ≤ x ∧ x ≤ 126 := fun x hx => h x (by simp [hx])
    have hSB : ¬ last = some SB := by
      rcases hlast with h0 | ⟨a, ha, ha1, ha2⟩ <;> simp_all [SB] <;> omega
    have hcmd : ¬ (last = some IAC ∨ last = some WILL ∨ last = some WONT
        ∨ last = some DO ∨ last = some DONT) := by
      rcases hlast with h0 | ⟨a, ha, ha1, ha2⟩ <;>
        simp_all [IAC, WILL, WONT, DO, DONT] <;> omega
    have hrange : ¬ (240 ≤ b ∧ b ≤ 255) := by omega
    simp [filterLoop, hSB, hcmd, hrange,
      ih hrest (some b) (Or.inr ⟨b, rfl, hb⟩)]

/-- **C3**: a byte sequence consisting solely of printable ASCII bytes
passes through the filter unchanged — every byte is kept in order, and
ISO-8859-1 decoding yields exactly the characters of those code
points. -/
theorem printable_ascii_unchanged (bs : List Nat)
    (h : ∀ b ∈ bs, 32 ≤ b ∧ b ≤ 126) :
    filterLoop none bs = bs ∧
    get_text_from_raw_bytes bs = String.mk (bs.map Char.ofNat) := by
  have hfl : filterLoop none bs = bs := filterLoop_printable bs h none (Or.inl rfl)
  exact ⟨hfl, by rw [get_text_from_raw_bytes, hfl]; rfl⟩

/-- Witness for C3 at the concrete printable input `"Hi"` =
`[72, 105]`. -/
theorem printable_ascii_unchanged_witness :
    filterLoop none [72, 105] = [72, 105] ∧
    get_text_from_raw_bytes [72, 105] =
      String.mk ([72, 105].map Char.ofNat) :=
  printable_ascii_unchanged [72, 105] (by decide)

/-! ## Lemmas about movie compression -/

theorem totalDisplayTime_cons (f : Frame) (l : List Frame) :
    totalDisplayTime (f :: l) = f.display_time + totalDisplayTime l := by
  simp [totalDisplayTime]

/-- The compression loop preserves total display time: merging a frame
into the current run adds its display time to the run head. -/
theorem compressRun_total (fs : List Frame) : ∀ cur : Frame,
    totalDisplayTime (compressRun cur fs) =
      cur.display_time + totalDisplayTime fs := by
  induction fs with
  | nil => intro cur; simp [compressRun, totalDisplayTime]
  | cons f rest ih =>
    intro cur
    by_cases h : frameEq f cur
    · have e : compressRun cur (f :: rest) =
          compressRun { cur with display_time := cur.display_time + f.display_time } rest := by
        simp [compressRun, h]
      rw [e, ih, totalDisplayTime_cons]
      dsimp only
      ring
    · have e : compressRun cur (f :: rest) = cur :: compressRun f rest := by
        simp [compressRun, h]
      rw [e, totalDisplayTime_cons, ih, totalDisplayTime_cons]

/-- The compression loop produces a nonempty list whose head carries the
current run's data, in which no frame's data equals its predecessor's. -/
theorem compressRun_shape (fs : List Frame) : ∀ cur : Frame,
    ∃ t rest2, compressRun cur fs = Frame.mk t cur.data :: rest2 ∧
      List.Chain' (fun a b => frameEq b a = false)
        (Frame.mk t cur.data :: rest2) := by
  induction fs with
  | nil =>
    intro cur
    exact ⟨cur.display_time, [], rfl, List.chain'_singleton _⟩
  | cons f rest ih =>
    intro cur
    by_cases h : frameEq f cur
    · obtain ⟨t, rest2, heq, hchain⟩ :=
        ih { cur with display_time := cur.display_time + f.display_time }
      exact ⟨t, rest2, by simpa [compressRun, h] using heq, hchain⟩
    · obtain ⟨t, rest2, heq, hchain⟩ := ih f
      refine ⟨cur.display_time, compressRun f rest, by simp [compressRun, h], ?_⟩
      rw [heq, List.chain'_cons]
      refine ⟨?_, hchain⟩
      simpa [frameEq] using (by simpa [frameEq] using h : ¬ f.data == cur.data)

/-- On a list with no two consecutive equal-data frames, the compression
loop merges nothing and returns the list as it is. -/
theorem compressRun_of_chain (rest : List Frame) : ∀ g : Frame,
    List.Chain' (fun a b => frameEq b a = false) (g :: rest) →
    compressRun g rest = g :: rest := by
  induction rest with
  | nil => intro g _; rfl
  | cons f rest2 ih =>
    intro g hchain
    rw [List.chain'_cons] at hchain
    have hne : ¬ frameEq f g := by simp [hchain.1]
    simp [compressRun, hne, ih f hchain.2]

/-! ## C4, C5, C10: movie compression -/

/-- **C4**: `Movie.compress` is idempotent and duration-preserving —
whenever `compress` succeeds, running it again on the result yields the
identical frame sequence, and the summed display time of the result
equals that of the input. -/
theorem compress_idempotent_duration_preserving (fs fs' : List Frame)
    (h : compress fs = some fs') :
    compress fs' = some fs' ∧ totalDisplayTime fs' = totalDisplayTime fs := by
  cases fs with
  | nil => simp [compress] at h
  | cons f rest =>
    simp only [compress, Option.some_inj] at h
    obtain ⟨t, rest2, heq, hchain⟩ := compressRun_shape rest f
    constructor
    · rw [← h, heq]
      simp only [compress, Option.some_inj]
      exact compressRun_of_chain rest2 _ hchain
    · rw [← h, compressRun_total]
      simp [totalDisplayTime]

/-- Witness for C4: compressing `[⟨1,“a”⟩, ⟨2,“a”⟩]` gives `[⟨3,“a”⟩]`;
compressing again is the identity and total time 3 is preserved. -/
theorem compress_idempotent_witness :
    compress [Frame.mk 3 ["a"]] = some [Frame.mk 3 ["a"]] ∧
    totalDisplayTime [Frame.mk 3 ["a"]] =
      totalDisplayTime [Frame.mk 1 ["a"], Frame.mk 2 ["a"]] :=
  compress_idempotent_duration_preserving
    [Frame.mk 1 ["a"], Frame.mk 2 ["a"]] [Frame.mk 3 ["a"]] (by decide)

/-- **C5**: a movie of two identical single-line frames with display
times 1 and 2 compresses to exactly one frame with display time 3. -/
theorem two_identical_frames_compress_to_one (s : String) :
    compress [Frame.mk 1 [s], Frame.mk 2 [s]] = some [Frame.mk 3 [s]] := by
  simp [compress, compressRun, frameEq]

/-- **C10**: `compress` fails (the `ZeroDivisionError` in the
compression-percentage computation) exactly on the empty frame list, so
any caller needing it to succeed must supply at least one frame. -/
theorem compress_fails_iff_no_frames (fs : List Frame) :
    compress fs = none ↔ fs = [] := by
  cases fs <;> simp [compress]

/-! ## C6: load-once semantics of `Movie.load` -/

/-- **C6**: a second `load` on an already-loaded movie returns the
failure value `False` and leaves the movie — its frame list and its
loaded flag — exactly as it was. -/
theorem load_once (m : Movie) (file : MovieFile) (h : m.loaded = true) :
    m.load file = .ok (false, m) := by
  simp [Movie.load, h]

/-- Witness for C6: a concrete already-loaded movie refuses a second
`load` untouched. -/
theorem load_once_witness :
    (Movie.mk [Frame.mk 1 ["z"]] true 80 24 67 13 6 5).load (.txt ["3"]) =
      .ok (false, Movie.mk [Frame.mk 1 ["z"]] true 80 24 67 13 6 5) :=
  load_once (Movie.mk [Frame.mk 1 ["z"]] true 80 24 67 13 6 5) (.txt ["3"]) rfl

/-! ## C7: `Repeat` re-asks the same enclosing Prompt -/

/-- **C7**: when the response matched for the input is a `Repeat`,
`Prompt.run` retries the *same* prompt on the remaining input —
the run on `i :: rest` is exactly the run on `rest` with one more
invocation of the same question text prepended — and every question
string any `Prompt.run` ever passes to the prompt function is that
prompt's own question text (the resolution never restarts anywhere
else). -/
theorem repeat_reasks_same_prompt (question : String) (response : CResponse)
    (dflt : Option CNode) (i : String) (rest : List String)
    (h : findResponse response dflt i = some .nrepeat) :
    promptRun question response dflt (i :: rest) =
      (promptRun question response dflt rest).map
        (fun r => (promptText question :: r.1, r.2)) ∧
    ∀ inputs qs res rem,
      promptRun question response dflt inputs = some (qs, res, rem) →
      ∀ q ∈ qs, q = promptText question := by
  constructor
  · simp [promptRun, h]
  · intro inputs
    induction inputs with
    | nil =>
      intro qs res rem hrun
      simp [promptRun] at hrun
    | cons j rest2 ih =>
      intro qs res rem hrun
      cases hfr : findResponse response dflt j with
      | none =>
        simp [promptRun, hfr] at hrun
        obtain ⟨hqs, -⟩ := hrun
        intro q hq
        rw [← hqs] at hq
        simpa using hq
      | some n =>
        cases n with
        | nrepeat =>
          simp only [promptRun, hfr] at hrun
          cases hpr : promptRun question response dflt rest2 with
          | none => rw [hpr] at hrun; simp at hrun
          | some r =>
            rw [hpr] at hrun
            simp at hrun
            obtain ⟨hqs, -⟩ := hrun
            intro q hq
            rw [← hqs] at hq
            rcases List.mem_cons.mp hq with h1 | h2
            · exact h1
            · exact ih r.1 r.2.1 r.2.2 hpr q h2
        | nstr s =>
          simp [promptRun, hfr] at hrun
          obtain ⟨hqs, -⟩ := hrun
          intro q hq
          rw [← hqs] at hq
          simpa using hq
        | nout t =>
          simp [promptRun, hfr] at hrun
          obtain ⟨hqs, -⟩ := hrun
          intro q hq
          rw [← hqs] at hq
          simpa using hq
        | nprompt q2 r2 d2 =>
          simp [promptRun, hfr] at hrun
          obtain ⟨hqs, -⟩ := hrun
          intro q hq
          rw [← hqs] at hq
          simpa using hq

/-- Witness for C7: a prompt whose `"n"` pattern maps to `Repeat`, on
inputs `["no", "yes"]`, re-runs itself on `["yes"]` with its own question
text asked again. -/
theorem repeat_reasks_same_prompt_witness :
    promptRun "continue?" (.table [("n", CNode.nrepeat)]) none ["no", "yes"] =
      (promptRun "continue?" (.table [("n", CNode.nrepeat)]) none ["yes"]).map
        (fun r => (promptText "continue?" :: r.1, r.2)) :=
  (repeat_reasks_same_prompt "continue?" (.table [("n", CNode.nrepeat)]) none
    "no" ["yes"] (by rfl)).1

/-! ## C8: unknown conversation names are not checked at startup -/

/-- **C8 (counterexample)**: a dialogue with no conversations passes the
startup handling of the dialogue document without error — startup only
extracts the top-level `dialogue` key — yet `Dialogue.run` on the
conversation name `"visitor"` raises `KeyError`.  The lookup error for an
unknown conversation name therefore occurs at the first `Dialogue.run`
call with that name (while a connection is being served), not at startup
validation, contradicting the claim. -/
theorem unknown_conversation_checked_at_run_not_startup :
    startupLoadDialogue [("dialogue", Dialogue.mk [])] = .ok (Dialogue.mk []) ∧
    Dialogue.run (Dialogue.mk []) "visitor" [] = .error .keyError :=
  ⟨rfl, rfl⟩

/-- **C8 (amended)**: looking up a conversation name absent from the
dialogue configuration raises `KeyError` at the moment `Dialogue.run` is
called with that name; startup merely extracts the `dialogue` key and
performs no validation of conversation names, so the error is deferred to
first use. -/
theorem unknown_conversation_keyerror_at_run (d : Dialogue) (name : String)
    (inputs : List String)
    (h : d.conversations.find? (fun e => e.1 == name) = none) :
    Dialogue.run d name inputs = .error .keyError ∧
    startupLoadDialogue [("dialogue", d)] = .ok d := by
  constructor
  · simp [Dialogue.run, h]
  · rfl

/-- Witness for C8 (amended): a dialogue holding only an `"adventure"`
conversation, queried for `"visitor"`. -/
theorem unknown_conversation_keyerror_at_run_witness :
    Dialogue.run (Dialogue.mk [("adventure", CNode.nstr "x")]) "visitor" [] =
      .error .keyError ∧
    startupLoadDialogue
        [("dialogue", Dialogue.mk [("adventure", CNode.nstr "x")])] =
      .ok (Dialogue.mk [("adventure", CNode.nstr "x")]) :=
  unknown_conversation_keyerror_at_run
    (Dialogue.mk [("adventure", CNode.nstr "x")]) "visitor" [] rfl

/-! ## C9: TimeBar marker monotonicity and clamping -/

theorem roundHalfEven_ge_floor (q : ℚ) : ⌊q⌋ ≤ roundHalfEven q := by
  unfold roundHalfEven
  split_ifs <;> omega

theorem roundHalfEven_le_floor_add_one (q : ℚ) : roundHalfEven q ≤ ⌊q⌋ + 1 := by
  unfold roundHalfEven
  split_ifs <;> omega

/-- Round-half-to-even is monotone. -/
theorem roundHalfEven_mono {a b : ℚ} (hab : a ≤ b) :
    roundHalfEven a ≤ roundHalfEven b := by
  have hf : ⌊a⌋ ≤ ⌊b⌋ := Int.floor_mono hab
  rcases lt_or_eq_of_le hf with hlt | heq
  · calc roundHalfEven a ≤ ⌊a⌋ + 1 := roundHalfEven_le_floor_add_one a
      _ ≤ ⌊b⌋ := by omega
      _ ≤ roundHalfEven b := roundHalfEven_ge_floor b
  · unfold roundHalfEven
    rw [← heq]
    split_ifs <;> first | omega | linarith

/-- **C9**: for every constructor-valid TimeBar, the marker index
produced by `get_marker_postion` is monotonically non-decreasing in the
frame number over `0..duration`, and the marker position actually used
by `get_timebar` (after the clamp) never exceeds `internal_length - 1`,
so the marker never overwrites the right decorator.  (When `duration = 0`
the division raises and no index is produced.) -/
theorem timebar_marker_monotone_clamped (tb : TimeBar) (hv : tb.valid) :
    (∀ i j pi pj, i ≤ j → j ≤ tb.duration →
      tb.get_marker_postion i = some pi →
      tb.get_marker_postion j = some pj → pi ≤ pj) ∧
    (∀ n p, tb.get_timebar_marker_pos n = some p →
      p ≤ tb.internal_length - 1) := by
  have hint : 0 ≤ tb.internal_length := by
    unfold TimeBar.valid at hv
    unfold TimeBar.internal_length
    simp [String.length_append] at hv
    omega
  constructor
  · intro i j pi pj hij hjd hpi hpj
    by_cases hd0 : tb.duration = 0
    · simp [TimeBar.get_marker_postion, hd0] at hpi
    · simp [TimeBar.get_marker_postion, hd0] at hpi hpj
      rw [← hpi, ← hpj]
      apply roundHalfEven_mono
      apply mul_le_mul_of_nonneg_left
      · exact_mod_cast hij
      · apply div_nonneg
        · exact_mod_cast hint
        · positivity
  · intro n p hp
    by_cases hd0 : tb.duration = 0
    · simp [TimeBar.get_timebar_marker_pos, TimeBar.get_marker_postion, hd0] at hp
    · simp [TimeBar.get_timebar_marker_pos, TimeBar.get_marker_postion, hd0] at hp
      split_ifs at hp with hcl
      · omega
      · omega

/-- Witness for C9: the default-decorated TimeBar of length 10 tracking 4
frames (internal length 8): marker indices at frames 1 and 2 are ordered,
and the clamped position at the final frame stays left of the right
decorator. -/
theorem timebar_marker_monotone_clamped_witness :
    (2 : Int) ≤ 4 ∧
    ((TimeBar.mk 4 10 "<" " " ">" "o").get_timebar_marker_pos 4).getD 0 ≤
      (TimeBar.mk 4 10 "<" " " ">" "o").internal_length - 1 := by
  have h := timebar_marker_monotone_clamped (TimeBar.mk 4 10 "<" " " ">" "o")
    (by decide)
  have hil : (TimeBar.mk 4 10 "<" " " ">" "o").internal_length = 8 := by decide
  have he1 : (TimeBar.mk 4 10 "<" " " ">" "o").get_marker_postion 1 = some 2 := by
    simp [TimeBar.get_marker_postion, hil]
    norm_num [roundHalfEven]
  have he2 : (TimeBar.mk 4 10 "<" " " ">" "o").get_marker_postion 2 = some 4 := by
    simp [TimeBar.get_marker_postion, hil]
    norm_num [roundHalfEven]
  have he4 : (TimeBar.mk 4 10 "<" " " ">" "o").get_timebar_marker_pos 4 =
      some 7 := by
    simp [TimeBar.get_timebar_marker_pos, TimeBar.get_marker_postion, hil]
    norm_num [roundHalfEven]
  refine ⟨h.1 1 2 2 4 (by omega) (by decide) he1 he2, ?_⟩
  rw [he4]
  exact h.2 4 7 he4

end AsciiTelnet
